import Mathlib

/-!
Verification of the WDD (Wigner Distribution Deconvolution) ptychography
pipeline in src/pty/wdd.py.

The numpy arrays of the source are embedded as functions on Fin-indexed
grids.  Complex floating-point scalars are embedded as pairs of exact
rationals (`Cq`): every arithmetic operation used by the source
(addition, multiplication, complex conjugation, squared magnitude,
division by a real scalar) is exact on rationals, so `Cq` is a faithful
idealisation of the source's complex arithmetic.  External collaborators
that the source imports from outside this repository (the probe model
`gen_probe.make_probe`, the sparsifier `pty_utils.sparse4D`, the scipy
interpolation shift, and the numpy FFT kernels) are either taken as
explicit parameters or modelled from the spec, as indicated at each
definition.
-/

/-- Complex scalar with exact rational real and imaginary components,
standing for a complex floating-point value of the source. -/
structure Cq where
  re : ℚ
  im : ℚ
  deriving DecidableEq, Repr

namespace Cq

@[ext] theorem ext {x y : Cq} (hre : x.re = y.re) (him : x.im = y.im) : x = y := by
  cases x; cases y; cases hre; cases him; rfl

instance : Zero Cq := ⟨⟨0, 0⟩⟩

instance : One Cq := ⟨⟨1, 0⟩⟩

instance : Add Cq := ⟨fun x y => ⟨x.re + y.re, x.im + y.im⟩⟩

instance : Neg Cq := ⟨fun x => ⟨-x.re, -x.im⟩⟩

instance : Sub Cq := ⟨fun x y => ⟨x.re - y.re, x.im - y.im⟩⟩

/-- Complex multiplication. -/
instance : Mul Cq := ⟨fun x y => ⟨x.re * y.re - x.im * y.im, x.re * y.im + x.im * y.re⟩⟩

@[simp] theorem zero_re : (0 : Cq).re = 0 := rfl

@[simp] theorem zero_im : (0 : Cq).im = 0 := rfl

@[simp] theorem one_re : (1 : Cq).re = 1 := rfl

@[simp] theorem one_im : (1 : Cq).im = 0 := rfl

@[simp] theorem add_re (x y : Cq) : (x + y).re = x.re + y.re := rfl

@[simp] theorem add_im (x y : Cq) : (x + y).im = x.im + y.im := rfl

@[simp] theorem neg_re (x : Cq) : (-x).re = -x.re := rfl

@[simp] theorem neg_im (x : Cq) : (-x).im = -x.im := rfl

@[simp] theorem sub_re (x y : Cq) : (x - y).re = x.re - y.re := rfl

@[simp] theorem sub_im (x y : Cq) : (x - y).im = x.im - y.im := rfl

@[simp] theorem mul_re (x y : Cq) : (x * y).re = x.re * y.re - x.im * y.im := rfl

@[simp] theorem mul_im (x y : Cq) : (x * y).im = x.re * y.im + x.im * y.re := rfl

instance : AddCommGroup Cq where
  add_assoc := by intros; ext <;> simp <;> ring
  zero_add := by intros; ext <;> simp
  add_zero := by intros; ext <;> simp
  add_comm := by intros; ext <;> simp <;> ring
  neg_add_cancel := by intros; ext <;> simp
  sub_eq_add_neg := by intros; ext <;> simp <;> ring
  nsmul := nsmulRec
  zsmul := zsmulRec

/-- Complex conjugation, `np.conj` of the source. -/
def conj (x : Cq) : Cq := ⟨x.re, -x.im⟩

@[simp] theorem conj_re (x : Cq) : (conj x).re = x.re := rfl

@[simp] theorem conj_im (x : Cq) : (conj x).im = -x.im := rfl

@[simp] theorem conj_conj (x : Cq) : conj (conj x) = x := by ext <;> simp

/-- Squared magnitude, `np.abs(z) ** 2` of the source. -/
def normSq (x : Cq) : ℚ := x.re * x.re + x.im * x.im

theorem normSq_nonneg (x : Cq) : 0 ≤ normSq x := by
  have h1 : 0 ≤ x.re * x.re := mul_self_nonneg _
  have h2 : 0 ≤ x.im * x.im := mul_self_nonneg _
  unfold normSq; linarith

@[simp] theorem normSq_zero : normSq 0 = 0 := by simp [normSq]

theorem normSq_eq_zero {x : Cq} (h : normSq x = 0) : x = 0 := by
  have h1 : 0 ≤ x.re * x.re := mul_self_nonneg _
  have h2 : 0 ≤ x.im * x.im := mul_self_nonneg _
  have hre : x.re * x.re = 0 := by unfold normSq at h; linarith
  have him : x.im * x.im = 0 := by unfold normSq at h; linarith
  ext
  · simpa using mul_self_eq_zero.mp hre
  · simpa using mul_self_eq_zero.mp him

theorem normSq_mul (x y : Cq) : normSq (x * y) = normSq x * normSq y := by
  simp [normSq]; ring

theorem mul_conj_self (x : Cq) : x * conj x = ⟨normSq x, 0⟩ := by
  ext <;> simp [normSq] <;> ring

theorem conj_mul_self (x : Cq) : conj x * x = ⟨normSq x, 0⟩ := by
  ext <;> simp [normSq] <;> ring

theorem normSq_sub (x y : Cq) :
    normSq (x - y) = normSq x + normSq y - 2 * (x * conj y).re := by
  simp [normSq]; ring

/-- Division of a complex value by a real scalar, as in `tb / intensity_param`. -/
def divq (x : Cq) (q : ℚ) : Cq := ⟨x.re / q, x.im / q⟩

/-- Real part as an additive monoid homomorphism (used to push sums inside). -/
def reHom : Cq →+ ℚ where
  toFun := re
  map_zero' := rfl
  map_add' := fun _ _ => rfl

/-- Imaginary part as an additive monoid homomorphism. -/
def imHom : Cq →+ ℚ where
  toFun := im
  map_zero' := rfl
  map_add' := fun _ _ => rfl

@[simp] theorem reHom_apply (x : Cq) : reHom x = x.re := rfl

@[simp] theorem imHom_apply (x : Cq) : imHom x = x.im := rfl

theorem re_sum {ι : Type} (s : Finset ι) (f : ι → Cq) :
    (∑ i ∈ s, f i).re = ∑ i ∈ s, (f i).re :=
  map_sum reHom f s

theorem im_sum {ι : Type} (s : Finset ι) (f : ι → Cq) :
    (∑ i ∈ s, f i).im = ∑ i ∈ s, (f i).im :=
  map_sum imHom f s

end Cq

/-- A 2D complex array of shape `(w, h)`. -/
abbrev T2 (w h : ℕ) := Fin w → Fin h → Cq

/-- A 4D complex array of shape `(n0, n1, n2, n3)`. -/
abbrev T4 (n0 n1 n2 n3 : ℕ) := Fin n0 → Fin n1 → Fin n2 → Fin n3 → Cq

/-- The numpy slab assignment `acc[:, :, ii, jj] = slab`: the 2D plane of the
last two axes at `(ii, jj)` is overwritten, all other entries are kept. -/
def updSlab {n0 n1 n2 n3 : ℕ} (acc : T4 n0 n1 n2 n3) (ii : Fin n2) (jj : Fin n3)
    (slab : Fin n0 → Fin n1 → Cq) : T4 n0 n1 n2 n3 :=
  fun a b i j => if i = ii ∧ j = jj then slab a b else acc a b i j

theorem foldl_updSlab_fix3 {n0 n1 n2 n3 : ℕ}
    (F : Fin n2 → Fin n3 → Fin n0 → Fin n1 → Cq) (jj : Fin n3)
    (l : List (Fin n2)) (acc : T4 n0 n1 n2 n3)
    (a : Fin n0) (b : Fin n1) (i : Fin n2) (j : Fin n3) :
    (l.foldl (fun acc2 ii => updSlab acc2 ii jj (F ii jj)) acc) a b i j
      = if i ∈ l ∧ j = jj then F i jj a b else acc a b i j := by
  induction l generalizing acc with
  | nil => simp
  | cons x xs ih =>
      rw [List.foldl_cons, ih]
      by_cases hj : j = jj
      · subst hj
        by_cases hx : i = x
        · subst hx
          by_cases hmem : i ∈ xs <;> simp [hmem, updSlab]
        · by_cases hmem : i ∈ xs <;> simp [hmem, hx, updSlab]
      · simp [hj, updSlab]

theorem foldl_updSlab_full3 {n0 n1 n2 n3 : ℕ}
    (F : Fin n2 → Fin n3 → Fin n0 → Fin n1 → Cq)
    (lj : List (Fin n3)) (acc : T4 n0 n1 n2 n3)
    (a : Fin n0) (b : Fin n1) (i : Fin n2) (j : Fin n3) :
    (lj.foldl
        (fun acc2 jj =>
          (List.finRange n2).foldl (fun acc3 ii => updSlab acc3 ii jj (F ii jj)) acc2)
        acc) a b i j
      = if j ∈ lj then F i j a b else acc a b i j := by
  induction lj generalizing acc with
  | nil => simp
  | cons x xs ih =>
      rw [List.foldl_cons, ih]
      by_cases hmem : j ∈ xs
      · simp [hmem]
      · by_cases hx : j = x
        · subst hx
          simp [hmem, foldl_updSlab_fix3, List.mem_finRange]
        · simp [hmem, hx, foldl_updSlab_fix3]

theorem foldl_updSlab_fix2 {n0 n1 n2 n3 : ℕ}
    (F : Fin n2 → Fin n3 → Fin n0 → Fin n1 → Cq) (ii : Fin n2)
    (l : List (Fin n3)) (acc : T4 n0 n1 n2 n3)
    (a : Fin n0) (b : Fin n1) (i : Fin n2) (j : Fin n3) :
    (l.foldl (fun acc2 jj => updSlab acc2 ii jj (F ii jj)) acc) a b i j
      = if i = ii ∧ j ∈ l then F ii j a b else acc a b i j := by
  induction l generalizing acc with
  | nil => simp
  | cons x xs ih =>
      rw [List.foldl_cons, ih]
      by_cases hi : i = ii
      · subst hi
        by_cases hx : j = x
        · subst hx
          by_cases hmem : j ∈ xs <;> simp [hmem, updSlab]
        · by_cases hmem : j ∈ xs <;> simp [hmem, hx, updSlab]
      · simp [hi, updSlab]

theorem foldl_updSlab_full2 {n0 n1 n2 n3 : ℕ}
    (F : Fin n2 → Fin n3 → Fin n0 → Fin n1 → Cq)
    (li : List (Fin n2)) (acc : T4 n0 n1 n2 n3)
    (a : Fin n0) (b : Fin n1) (i : Fin n2) (j : Fin n3) :
    (li.foldl
        (fun acc2 ii =>
          (List.finRange n3).foldl (fun acc3 jj => updSlab acc3 ii jj (F ii jj)) acc2)
        acc) a b i j
      = if i ∈ li then F i j a b else acc a b i j := by
  induction li generalizing acc with
  | nil => simp
  | cons x xs ih =>
      rw [List.foldl_cons, ih]
      by_cases hmem : i ∈ xs
      · simp [hmem]
      · by_cases hx : i = x
        · subst hx
          simp [hmem, foldl_updSlab_fix2, List.mem_finRange]
        · simp [hmem, hx, foldl_updSlab_fix2]

/-- Lines 34-39 of wdd.py, the body of `psi_multiply`: the output array is
allocated as complex zeros of the shape of `data_1`, then for every `(ii, jj)`
of the last two axes the slab `data_1[:,:,ii,jj] * conj(data_2[:,:,ii,jj])`
is written (loop order: `jj` outer, `ii` inner, as in the source). -/
def psi_multiply {n0 n1 n2 n3 : ℕ} (data_1 data_2 : T4 n0 n1 n2 n3) : T4 n0 n1 n2 n3 :=
  (List.finRange n3).foldl
    (fun acc jj =>
      (List.finRange n2).foldl
        (fun acc2 ii =>
          updSlab acc2 ii jj
            (fun a b => data_1 a b ii jj * Cq.conj (data_2 a b ii jj)))
        acc)
    (fun _ _ _ _ => 0)

theorem psi_multiply_apply {n0 n1 n2 n3 : ℕ} (data_1 data_2 : T4 n0 n1 n2 n3)
    (a : Fin n0) (b : Fin n1) (i : Fin n2) (j : Fin n3) :
    psi_multiply data_1 data_2 a b i j = data_1 a b i j * Cq.conj (data_2 a b i j) := by
  unfold psi_multiply
  rw [foldl_updSlab_full3 (fun ii jj a b => data_1 a b ii jj * Cq.conj (data_2 a b ii jj))]
  simp [List.mem_finRange]

/-- Line 96 of wdd.py: `fourier_beam = tb / intensity_param`, the probe
wavefunction scaled down by the normalization scalar. -/
def fourier_beam {w h : ℕ} (tb : T2 w h) (intensity_param : ℚ) : T2 w h :=
  fun a b => Cq.divq (tb a b) intensity_param

/-- Lines 93-105 of wdd.py, the body of `fft_wigner_probe`.  The probe
wavefunction `tb` stands for the value of the external collaborator call
`gp.make_probe(aperture_mrad, voltage, image_x, image_y, calibration_pm)`
(line 95), and `shiftFn` stands for the external interpolation shift
`scnd.interpolation.shift` (line 102); both live outside this repository and
are taken as parameters.  For every grid position `(rows_x, rows_y)` the
slab `conj(fourier_beam) * shift(fourier_beam, (-xpos, -ypos))` with
`xpos = rows_x - image_x/2`, `ypos = rows_y - image_y/2` is written at
`wigner_beam[:, :, rows_x, rows_y]` (loop order: `rows_x` outer, `rows_y`
inner, as in the source). -/
def fft_wigner_probe {image_x image_y : ℕ} (tb : T2 image_x image_y)
    (shiftFn : T2 image_x image_y → ℚ × ℚ → T2 image_x image_y)
    (intensity_param : ℚ) : T4 image_x image_y image_x image_y :=
  (List.finRange image_x).foldl
    (fun acc rows_x =>
      (List.finRange image_y).foldl
        (fun acc2 rows_y =>
          updSlab acc2 rows_x rows_y
            (fun a b =>
              Cq.conj (fourier_beam tb intensity_param a b) *
                shiftFn (fourier_beam tb intensity_param)
                  (-(((rows_x : ℕ) : ℚ) - (image_x : ℚ) / 2),
                   -(((rows_y : ℕ) : ℚ) - (image_y : ℚ) / 2)) a b))
        acc)
    (fun _ _ _ _ => 0)

theorem fft_wigner_probe_apply {image_x image_y : ℕ} (tb : T2 image_x image_y)
    (shiftFn : T2 image_x image_y → ℚ × ℚ → T2 image_x image_y)
    (intensity_param : ℚ)
    (a : Fin image_x) (b : Fin image_y) (x : Fin image_x) (y : Fin image_y) :
    fft_wigner_probe tb shiftFn intensity_param a b x y
      = Cq.conj (fourier_beam tb intensity_param a b) *
          shiftFn (fourier_beam tb intensity_param)
            (-(((x : ℕ) : ℚ) - (image_x : ℚ) / 2),
             -(((y : ℕ) : ℚ) - (image_y : ℚ) / 2)) a b := by
  unfold fft_wigner_probe
  rw [foldl_updSlab_full2]
  simp [List.mem_finRange]

/-- Index map of numpy `fft.fftshift` along one axis of length `n`:
the output at index `i` reads the input at `(i - n.div 2) mod n`
(`fftshift` is `np.roll` by `n.div 2`). -/
def fftshiftIdx {n : ℕ} (i : Fin n) : Fin n :=
  ⟨(i + (n - n / 2)) % n, Nat.mod_lt _ i.pos⟩

/-- Index map of numpy `fft.ifftshift` along one axis of length `n`:
the output at index `i` reads the input at `(i + n.div 2) mod n`. -/
def ifftshiftIdx {n : ℕ} (i : Fin n) : Fin n :=
  ⟨(i + n / 2) % n, Nat.mod_lt _ i.pos⟩

theorem ifftshiftIdx_fftshiftIdx {n : ℕ} (i : Fin n) :
    ifftshiftIdx (fftshiftIdx i) = i := by
  apply Fin.ext
  show ((i + (n - n / 2)) % n + n / 2) % n = (i : ℕ)
  have hle : n / 2 ≤ n := Nat.div_le_self n 2
  rw [Nat.mod_add_mod, Nat.add_assoc, Nat.sub_add_cancel hle, Nat.add_mod_right,
    Nat.mod_eq_of_lt i.isLt]

theorem fftshiftIdx_ifftshiftIdx {n : ℕ} (i : Fin n) :
    fftshiftIdx (ifftshiftIdx i) = i := by
  apply Fin.ext
  show ((i + n / 2) % n + (n - n / 2)) % n = (i : ℕ)
  have hle : n / 2 ≤ n := Nat.div_le_self n 2
  rw [Nat.mod_add_mod, Nat.add_assoc, Nat.add_sub_cancel' hle, Nat.add_mod_right,
    Nat.mod_eq_of_lt i.isLt]

/-- numpy `fft.fft2(x, axes=(2,3))` with the 2D Fourier kernel left abstract:
a 2D transform `F` applied independently at every position `(i, j)` of the
first two (scan) axes, acting over the last two (detector) axes. -/
def fft2_axes23 {s0 s1 d0 d1 : ℕ} (F : T2 d0 d1 → T2 d0 d1)
    (x : T4 s0 s1 d0 d1) : T4 s0 s1 d0 d1 :=
  fun i j k l => F (fun a b => x i j a b) k l

/-- numpy `fft.ifft2(x, axes=(0,1))` with the 2D inverse kernel left abstract:
a 2D transform `Fi` applied independently at every position `(k, l)` of the
last two axes, acting over the first two axes. -/
def fft2_axes01 {s0 s1 d0 d1 : ℕ} (Fi : T2 s0 s1 → T2 s0 s1)
    (x : T4 s0 s1 d0 d1) : T4 s0 s1 d0 d1 :=
  fun i j k l => Fi (fun a b => x a b k l) i j

/-- numpy `fft.fftshift(x, axes=(2,3))`: the centering shift applied along the
last two axes. -/
def fftshift_axes23 {s0 s1 d0 d1 : ℕ} (x : T4 s0 s1 d0 d1) : T4 s0 s1 d0 d1 :=
  fun i j k l => x i j (fftshiftIdx k) (fftshiftIdx l)

/-- numpy `fft.ifftshift(x, axes=(0,1))`: the inverse centering shift applied
along the first two axes. -/
def ifftshift_axes01 {s0 s1 d0 d1 : ℕ} (x : T4 s0 s1 d0 d1) : T4 s0 s1 d0 d1 :=
  fun i j k l => x (ifftshiftIdx i) (ifftshiftIdx j) k l

/-- Line 163 of wdd.py:
`dataFT = np.fft.fftshift(np.fft.fft2(data4D, axes=(2,3)), axes=(2,3))`,
with the 2D forward Fourier kernel `F` a parameter. -/
def dataFT {s0 s1 d0 d1 : ℕ} (F : T2 d0 d1 → T2 d0 d1)
    (data4D : T4 s0 s1 d0 d1) : T4 s0 s1 d0 d1 :=
  fftshift_axes23 (fft2_axes23 F data4D)

/-- Line 164 of wdd.py:
`dataIFT = np.fft.ifftshift(np.fft.ifft2(dataFT, axes=(0,1)), axes=(0,1))`,
with the 2D inverse Fourier kernel `Fi` a parameter. -/
def dataIFT {s0 s1 d0 d1 : ℕ} (F : T2 d0 d1 → T2 d0 d1) (Fi : T2 s0 s1 → T2 s0 s1)
    (data4D : T4 s0 s1 d0 d1) : T4 s0 s1 d0 d1 :=
  ifftshift_axes01 (fft2_axes01 Fi (dataFT F data4D))

/-- Line 165 of wdd.py:
`inverse_wigner = np.fft.ifftshift(np.fft.ifft2(wigner_beam, axes=(0,1)), axes=(0,1))`. -/
def inverse_wigner {s0 s1 d0 d1 : ℕ} (Fi : T2 s0 s1 → T2 s0 s1)
    (wigner_beam : T4 s0 s1 d0 d1) : T4 s0 s1 d0 d1 :=
  ifftshift_axes01 (fft2_axes01 Fi wigner_beam)

/-- A 4D array of real values (the measured intensities). -/
abbrev R4 (n0 n1 n2 n3 : ℕ) := Fin n0 → Fin n1 → Fin n2 → Fin n3 → ℚ

/-- Line 159 of wdd.py: `np.sum(np.mean(data4D, axis=(2,3)))` — the mean over
the two detector axes (2,3) taken at each scan position, then summed over the
two scan axes. -/
def diffractogram_intensity {s0 s1 d0 d1 : ℕ} (data4D : R4 s0 s1 d0 d1) : ℚ :=
  ∑ i : Fin s0, ∑ j : Fin s1,
    (∑ k : Fin d0, ∑ l : Fin d1, data4D i j k l) / ((d0 : ℚ) * (d1 : ℚ))

/-- The denominator as claim C4 words it: the diffraction intensity summed
over the detector frame, then averaged (mean) across the scan positions. -/
def diffractogram_intensity_claim {s0 s1 d0 d1 : ℕ} (data4D : R4 s0 s1 d0 d1) : ℚ :=
  (∑ i : Fin s0, ∑ j : Fin s1, ∑ k : Fin d0, ∑ l : Fin d1, data4D i j k l)
    / ((s0 : ℚ) * (s1 : ℚ))

/-- Line 160 of wdd.py: `(np.abs(electron_beam) ** 2).sum()`. -/
def mainbeam_intensity {w h : ℕ} (electron_beam : T2 w h) : ℚ :=
  ∑ a : Fin w, ∑ b : Fin h, Cq.normSq (electron_beam a b)

/-- Line 161 of wdd.py squared:
`intensity_changer = (mainbeam_intensity / diffractogram_intensity) ** 0.5`.
The square root of a rational is in general irrational, so the embedding
tracks the square of the normalization scalar; the scalar itself is its
nonnegative square root, so positivity and equality statements about the
scalar transfer to its square. -/
def intensity_changer_sq {s0 s1 d0 d1 w h : ℕ} (data4D : R4 s0 s1 d0 d1)
    (electron_beam : T2 w h) : ℚ :=
  mainbeam_intensity electron_beam / diffractogram_intensity data4D

/-- Modelled from the spec (error taxonomy of §7): the error types the spec
assigns to the reconstruction.  The source file defines and raises none of
them. -/
inductive WddError where
  | shapeMismatch
  | invalidInput
  | numericInstability
  deriving DecidableEq, Repr

/-- Lines 159-161 of wdd.py viewed as a fallible computation over the spec's
error taxonomy: the normalization block is straight-line arithmetic with no
validation and no raise statement, so it returns its value on every input and
never produces an error.  The value tracked is the square of the
normalization scalar. -/
def wdd_normalization {s0 s1 d0 d1 w h : ℕ} (data4D : R4 s0 s1 d0 d1)
    (electron_beam : T2 w h) : Except WddError ℚ :=
  Except.ok (intensity_changer_sq data4D electron_beam)

/-- Modelled from the spec (§6, `pty_utils.sparse4D` is not under src/):
elements are zeroed where the magnitude reference falls below an internally
determined data-adaptive threshold, otherwise passed through unchanged.  The
internally chosen threshold is exposed as the parameter `thresh`. -/
def sparse4D {n0 n1 n2 n3 : ℕ} (thresh : ℚ) (t : T4 n0 n1 n2 n3)
    (ref : Fin n0 → Fin n1 → Fin n2 → Fin n3 → ℚ) : T4 n0 n1 n2 n3 :=
  fun i j k l => if ref i j k l < thresh then 0 else t i j k l

/-- Line 166 of wdd.py:
`Psi_Wigner = pu.sparse4D(psi_multiply(dataIFT, np.conj(inverse_wigner)), np.abs(inverse_wigner) ** 2)`.
Note the explicit `np.conj` wrapped around `inverse_wigner` before it is
passed as the second (conjugated) operand of `psi_multiply`. -/
def Psi_Wigner {n0 n1 n2 n3 : ℕ} (thresh : ℚ) (F : T2 n2 n3 → T2 n2 n3)
    (Fi : T2 n0 n1 → T2 n0 n1) (data4D wigner_beam : T4 n0 n1 n2 n3) :
    T4 n0 n1 n2 n3 :=
  sparse4D thresh
    (psi_multiply (dataIFT F Fi data4D)
      (fun i j k l => Cq.conj (inverse_wigner Fi wigner_beam i j k l)))
    (fun i j k l => Cq.normSq (inverse_wigner Fi wigner_beam i j k l))

/-- The combination step as claim C3 words it: the Pointwise Conjugate
Multiplier applied to the pair (Trotter-domain dataset, Inverse Wigner
Tensor) itself — so that the Inverse Wigner Tensor is conjugated exactly
once — then sparsified against the squared magnitude of the Inverse Wigner
Tensor. -/
def Psi_Wigner_claim {n0 n1 n2 n3 : ℕ} (thresh : ℚ) (F : T2 n2 n3 → T2 n2 n3)
    (Fi : T2 n0 n1 → T2 n0 n1) (data4D wigner_beam : T4 n0 n1 n2 n3) :
    T4 n0 n1 n2 n3 :=
  sparse4D thresh
    (psi_multiply (dataIFT F Fi data4D) (inverse_wigner Fi wigner_beam))
    (fun i j k l => Cq.normSq (inverse_wigner Fi wigner_beam i j k l))

/-- Lines 167-168 of wdd.py: `wig_shape = np.asarray(np.shape(Psi_Wigner))`
and the extracted slice
`Psi_Wigner[1 + int(wig_shape[0]/2), 1 + int(wig_shape[1]/2), :, :]` — the
first two axes are fixed at one past their half length (Python `int(x/2)`
truncates, i.e. floor division on naturals) and the last two axes range
fully.  The in-bounds conditions that numpy checks at runtime are
hypotheses. -/
def trotter_slice {n0 n1 n2 n3 : ℕ} (Psi : T4 n0 n1 n2 n3)
    (h0 : 1 + n0 / 2 < n0) (h1 : 1 + n1 / 2 < n1) : Fin n2 → Fin n3 → Cq :=
  fun k l => Psi ⟨1 + n0 / 2, h0⟩ ⟨1 + n1 / 2, h1⟩ k l

/-- The extraction as claim C2 words it: the shift axes 2 and 3 are the ones
fixed at one past their half length, while the first two axes range fully. -/
def trotter_slice_claim {n0 n1 n2 n3 : ℕ} (Psi : T4 n0 n1 n2 n3)
    (h2 : 1 + n2 / 2 < n2) (h3 : 1 + n3 / 2 < n3) : Fin n0 → Fin n1 → Cq :=
  fun i j => Psi i j ⟨1 + n2 / 2, h2⟩ ⟨1 + n3 / 2, h3⟩

/-- Line 168 of wdd.py, step 9: `np.multiply(slice, test_beam)` — the
extracted trotter slice multiplied elementwise by `test_beam`.  The name
`test_beam` is free in wdd.py: it is bound nowhere in the file and is not
among the parameters of `wdd`, so the embedding must accept it as an extra
input beyond the declared interface of `wdd`. -/
def wdd_step9 {n2 n3 : ℕ} (slice test_beam : Fin n2 → Fin n3 → Cq) :
    Fin n2 → Fin n3 → Cq :=
  fun k l => slice k l * test_beam k l

/-- Shape of one Python positional argument at the two `make_probe` call
sites of wdd.py. -/
inductive PyArg where
  | scalar (q : ℚ)
  | intPair (a b : ℕ)
  deriving DecidableEq, Repr

/-- Line 158 of wdd.py:
`electron_beam = gp.make_probe(aperture_mrad, voltage, (image_x, image_y), calibration_pm)`
— four positional arguments, with the image size passed as a single tuple in
the third position. -/
def wdd_make_probe_args (aperture_mrad voltage : ℚ) (image_x image_y : ℕ)
    (calibration_pm : ℚ) : List PyArg :=
  [PyArg.scalar aperture_mrad, PyArg.scalar voltage,
   PyArg.intPair image_x image_y, PyArg.scalar calibration_pm]

/-- Line 95 of wdd.py:
`tb = gp.make_probe(aperture_mrad, voltage, image_x, image_y, calibration_pm)`
— five positional arguments, the two image dimensions passed separately. -/
def fft_wigner_make_probe_args (aperture_mrad voltage : ℚ) (image_x image_y : ℕ)
    (calibration_pm : ℚ) : List PyArg :=
  [PyArg.scalar aperture_mrad, PyArg.scalar voltage,
   PyArg.scalar (image_x : ℚ), PyArg.scalar (image_y : ℚ),
   PyArg.scalar calibration_pm]

/-- Modelled from the spec (§6, `gen_probe.make_probe` is not under src/):
make_probe takes the five parameters
(aperture_angle, voltage, width, height, calibration). -/
def make_probe_arity : ℕ := 5

/-- The sum of one fixed shift-position slice of the Wigner tensor over its
first two (reciprocal-space) axes: the probe autocorrelation value carried by
the slice at shift position `(x, y)`. -/
def wigner_slice_sum {w h : ℕ} (wig : T4 w h w h) (x : Fin w) (y : Fin h) : Cq :=
  ∑ a : Fin w, ∑ b : Fin h, wig a b x y

namespace Cq

instance : CommRing Cq where
  __ := (inferInstance : AddCommGroup Cq)
  mul := (· * ·)
  one := 1
  left_distrib := by intros; ext <;> (simp; try ring)
  right_distrib := by intros; ext <;> (simp; try ring)
  zero_mul := by intros; ext <;> simp
  mul_zero := by intros; ext <;> simp
  mul_assoc := by intros; ext <;> (simp; try ring)
  one_mul := by intros; ext <;> simp
  mul_one := by intros; ext <;> simp
  mul_comm := by intros; ext <;> (simp; try ring)

@[simp] theorem conj_zero : conj 0 = 0 := by ext <;> simp

theorem conj_mul (x y : Cq) : conj (x * y) = conj x * conj y := by
  ext <;> (simp; try ring)

end Cq

/-- Discrete Cauchy-Schwarz inequality for `Cq`, in squared-magnitude form:
the squared magnitude of the inner product is at most the product of the two
total intensities. -/
theorem cq_cauchy_schwarz {ι : Type} (s : Finset ι) (f g : ι → Cq) :
    Cq.normSq (∑ i ∈ s, Cq.conj (f i) * g i)
      ≤ (∑ i ∈ s, Cq.normSq (f i)) * (∑ i ∈ s, Cq.normSq (g i)) := by
  set A := ∑ i ∈ s, Cq.normSq (f i) with hA
  set B := ∑ i ∈ s, Cq.normSq (g i) with hB
  set C := ∑ i ∈ s, Cq.conj (f i) * g i with hC
  have hAnn : 0 ≤ A := Finset.sum_nonneg fun i _ => Cq.normSq_nonneg _
  have hpoint : ∀ i ∈ s,
      Cq.normSq ((⟨A, 0⟩ : Cq) * g i - C * f i)
        = A * A * Cq.normSq (g i) + Cq.normSq C * Cq.normSq (f i)
            - 2 * A * (Cq.conj C * (Cq.conj (f i) * g i)).re := by
    intro i _
    simp [Cq.normSq]
    ring
  have hkey : ∑ i ∈ s, Cq.normSq ((⟨A, 0⟩ : Cq) * g i - C * f i)
      = A * A * B - A * Cq.normSq C := by
    rw [Finset.sum_congr rfl hpoint, Finset.sum_sub_distrib, Finset.sum_add_distrib,
      ← Finset.mul_sum, ← Finset.mul_sum, ← Finset.mul_sum, ← Cq.re_sum,
      ← Finset.mul_sum, ← hC, Cq.conj_mul_self]
    show A * A * B + Cq.normSq C * A - 2 * A * Cq.normSq C = _
    ring
  have hnn : 0 ≤ A * A * B - A * Cq.normSq C := by
    rw [← hkey]
    exact Finset.sum_nonneg fun i _ => Cq.normSq_nonneg _
  rcases eq_or_lt_of_le hAnn with hA0 | hApos
  · have hf : ∀ i ∈ s, Cq.normSq (f i) = 0 :=
      (Finset.sum_eq_zero_iff_of_nonneg fun i _ => Cq.normSq_nonneg (f i)).mp hA0.symm
    have hz : C = 0 := by
      rw [hC]
      apply Finset.sum_eq_zero
      intro i hi
      rw [Cq.normSq_eq_zero (hf i hi), Cq.conj_zero, zero_mul]
    rw [hz, Cq.normSq_zero, ← hA0, zero_mul]
  · nlinarith [hnn, hApos]

/-- Claim C6: for all complex 4D tensors `A` and `B` of equal shape,
`psi_multiply` returns a new tensor in which every element equals
`A[...] * conj(B[...])` — the scalar formula applied independently to every
element, with no cross-element dependency — and `psi_multiply A A` is
real-valued and non-negative everywhere. -/
theorem C6_psi_multiply_pointwise {n0 n1 n2 n3 : ℕ} (A B : T4 n0 n1 n2 n3)
    (a : Fin n0) (b : Fin n1) (i : Fin n2) (j : Fin n3) :
    psi_multiply A B a b i j = A a b i j * Cq.conj (B a b i j)
      ∧ (psi_multiply A A a b i j).im = 0
      ∧ 0 ≤ (psi_multiply A A a b i j).re := by
  refine ⟨psi_multiply_apply A B a b i j, ?_, ?_⟩
  · rw [psi_multiply_apply, Cq.mul_conj_self]
  · rw [psi_multiply_apply, Cq.mul_conj_self]
    exact Cq.normSq_nonneg _

/-- Claim C7: for every integer grid position `(x, y)` with `x` in
`[0, image_x)` and `y` in `[0, image_y)`, the Wigner Probe Synthesizer stores
at position `(x, y)` along the last two axes of its 4D output the 2D slice
`conj(P) * shift(P, -(x - image_x/2, y - image_y/2))` computed elementwise,
where `P` is the probe wavefunction divided by the normalization scalar and
`shift` is the external interpolation-based shift; every position of the full
grid is covered. -/
theorem C7_wigner_probe_synthesis {image_x image_y : ℕ} (tb : T2 image_x image_y)
    (shiftFn : T2 image_x image_y → ℚ × ℚ → T2 image_x image_y)
    (intensity_param : ℚ) :
    ∀ (x : Fin image_x) (y : Fin image_y) (a : Fin image_x) (b : Fin image_y),
      fft_wigner_probe tb shiftFn intensity_param a b x y
        = Cq.conj (fourier_beam tb intensity_param a b) *
            shiftFn (fourier_beam tb intensity_param)
              (-(((x : ℕ) : ℚ) - (image_x : ℚ) / 2),
               -(((y : ℕ) : ℚ) - (image_y : ℚ) / 2)) a b :=
  fun x y a b => fft_wigner_probe_apply tb shiftFn intensity_param a b x y

/-- Claim C9: the three domain transforms of lines 163-165 are performed in
order and over the stated axes: the measured dataset undergoes the 2D
transform kernel `F` over the two detector axes (independently at every scan
position) followed by the zero-frequency-centering shift over those axes; the
result undergoes the 2D inverse kernel `Fi` over the two scan axes
(independently at every detector pixel) followed by the inverse centering
shift over those axes; the Wigner tensor undergoes the inverse kernel over
its first two axes followed by the inverse centering shift over those axes.
The two index shifts are mutually inverse permutations. -/
theorem C9_domain_transforms {s0 s1 d0 d1 : ℕ} (F : T2 d0 d1 → T2 d0 d1)
    (Fi : T2 s0 s1 → T2 s0 s1) (data4D : T4 s0 s1 d0 d1)
    (wigner_beam : T4 s0 s1 d0 d1)
    (i : Fin s0) (j : Fin s1) (k : Fin d0) (l : Fin d1) :
    dataFT F data4D i j k l
        = F (fun a b => data4D i j a b) (fftshiftIdx k) (fftshiftIdx l)
      ∧ dataIFT F Fi data4D i j k l
        = Fi (fun a b => dataFT F data4D a b k l) (ifftshiftIdx i) (ifftshiftIdx j)
      ∧ inverse_wigner Fi wigner_beam i j k l
        = Fi (fun a b => wigner_beam a b k l) (ifftshiftIdx i) (ifftshiftIdx j)
      ∧ ifftshiftIdx (fftshiftIdx k) = k ∧ fftshiftIdx (ifftshiftIdx k) = k
      ∧ ifftshiftIdx (fftshiftIdx i) = i ∧ fftshiftIdx (ifftshiftIdx i) = i :=
  ⟨rfl, rfl, rfl, ifftshiftIdx_fftshiftIdx k, fftshiftIdx_ifftshiftIdx k,
    ifftshiftIdx_fftshiftIdx i, fftshiftIdx_ifftshiftIdx i⟩

/-- Claim C2, counterexample: the extraction of line 168 does not fix the
shift axes 2 and 3.  On the concrete 4x4x4x4 tensor whose entry is the index
along axis 0, the slice actually extracted (axes 0 and 1 fixed at
`1 + 4/2 = 3`) differs from the slice the claim describes (axes 2 and 3
fixed at 3). -/
theorem C2_counterexample :
    trotter_slice
        (fun (i : Fin 4) (_ : Fin 4) (_ : Fin 4) (_ : Fin 4) =>
          (⟨((i : ℕ) : ℚ), 0⟩ : Cq))
        (by decide) (by decide) 0 0
      ≠ trotter_slice_claim
          (fun (i : Fin 4) (_ : Fin 4) (_ : Fin 4) (_ : Fin 4) =>
            (⟨((i : ℕ) : ℚ), 0⟩ : Cq))
          (by decide) (by decide) 0 0 := by
  decide

/-- Claim C2, amended: the 2D slice carrying the dominant trotter is
extracted from Psi_Wigner at index one past the geometric center along each
of its FIRST two axes (axes 0 and 1), with axes 2 and 3 ranging fully. -/
theorem C2_amended {n0 n1 n2 n3 : ℕ} (Psi : T4 n0 n1 n2 n3)
    (h0 : 1 + n0 / 2 < n0) (h1 : 1 + n1 / 2 < n1) (k : Fin n2) (l : Fin n3) :
    trotter_slice Psi h0 h1 k l = Psi ⟨1 + n0 / 2, h0⟩ ⟨1 + n1 / 2, h1⟩ k l :=
  rfl

/-- Witness for the amended claim C2 at a concrete input. -/
theorem C2_amended_witness :
    (1 + 4 / 2 < 4)
      ∧ trotter_slice
          (fun (i : Fin 4) (_ : Fin 4) (_ : Fin 4) (_ : Fin 4) =>
            (⟨((i : ℕ) : ℚ), 0⟩ : Cq))
          (by decide) (by decide) 0 0
        = (⟨3, 0⟩ : Cq) :=
  ⟨by decide,
    (C2_amended
        (fun (i : Fin 4) (_ : Fin 4) (_ : Fin 4) (_ : Fin 4) =>
          (⟨((i : ℕ) : ℚ), 0⟩ : Cq))
        (by decide) (by decide) 0 0).trans (by decide)⟩

/-- Claim C3, counterexample: line 166 passes `np.conj(inverse_wigner)` as
the conjugated operand of `psi_multiply`, so the Inverse Wigner Tensor enters
the product conjugated twice, i.e. not at all.  On a concrete 1x1x1x1 input
(dataset entry 1, Wigner entry i, identity transform kernels, pass-through
threshold 0) the code computes `1 * i = i` while the claim's formula
`1 * conj(i) = -i` differs. -/
theorem C3_counterexample :
    Psi_Wigner 0 (fun t => t) (fun t => t)
        (fun (_ : Fin 1) (_ : Fin 1) (_ : Fin 1) (_ : Fin 1) => (1 : Cq))
        (fun (_ : Fin 1) (_ : Fin 1) (_ : Fin 1) (_ : Fin 1) => (⟨0, 1⟩ : Cq))
        0 0 0 0
      ≠ Psi_Wigner_claim 0 (fun t => t) (fun t => t)
          (fun (_ : Fin 1) (_ : Fin 1) (_ : Fin 1) (_ : Fin 1) => (1 : Cq))
          (fun (_ : Fin 1) (_ : Fin 1) (_ : Fin 1) (_ : Fin 1) => (⟨0, 1⟩ : Cq))
          0 0 0 0 := by
  simp only [Psi_Wigner, Psi_Wigner_claim, sparse4D, psi_multiply_apply, dataIFT,
    dataFT, inverse_wigner, ifftshift_axes01, fftshift_axes23, fft2_axes01,
    fft2_axes23, Cq.conj_conj]
  norm_num [Cq.normSq]
  intro habs
  have him := congrArg Cq.im habs
  simp [Cq.conj] at him
  norm_num at him

/-- Claim C3, amended: since `psi_multiply` conjugates its second operand and
line 166 already wraps `inverse_wigner` in `np.conj`, the two conjugations
cancel: Psi_Wigner is the sparsification (against the squared magnitude of
the Inverse Wigner Tensor) of the elementwise product
`dataIFT * inverse_wigner`, the Inverse Wigner Tensor entering the product
unconjugated (conjugated zero times). -/
theorem C3_amended {n0 n1 n2 n3 : ℕ} (thresh : ℚ) (F : T2 n2 n3 → T2 n2 n3)
    (Fi : T2 n0 n1 → T2 n0 n1) (data4D wigner_beam : T4 n0 n1 n2 n3)
    (i : Fin n0) (j : Fin n1) (k : Fin n2) (l : Fin n3) :
    Psi_Wigner thresh F Fi data4D wigner_beam i j k l
      = sparse4D thresh
          (fun i j k l =>
            dataIFT F Fi data4D i j k l * inverse_wigner Fi wigner_beam i j k l)
          (fun i j k l => Cq.normSq (inverse_wigner Fi wigner_beam i j k l))
          i j k l := by
  unfold Psi_Wigner sparse4D
  by_cases hc :
      Cq.normSq (inverse_wigner Fi wigner_beam i j k l) < thresh
  · simp [hc]
  · simp [hc, psi_multiply_apply, Cq.conj_conj]

/-- Claim C4, counterexample: the denominator of the normalization scalar is
not the mean over the scan axes of the detector-frame-summed intensity.  On
the all-ones dataset with 1x1 scan grid and 2x2 detector frame, line 159
computes `sum(mean(data, axis=(2,3))) = 1`, while the claim's denominator is
`4`; with the 1x1 unit probe the squared normalization scalar is `1`, not the
`1/4` the claim's formula gives. -/
theorem C4_counterexample :
    diffractogram_intensity
        (fun (_ : Fin 1) (_ : Fin 1) (_ : Fin 2) (_ : Fin 2) => (1 : ℚ)) = 1
      ∧ diffractogram_intensity_claim
          (fun (_ : Fin 1) (_ : Fin 1) (_ : Fin 2) (_ : Fin 2) => (1 : ℚ)) = 4
      ∧ intensity_changer_sq
          (fun (_ : Fin 1) (_ : Fin 1) (_ : Fin 2) (_ : Fin 2) => (1 : ℚ))
          (fun (_ : Fin 1) (_ : Fin 1) => (1 : Cq))
        ≠ mainbeam_intensity (fun (_ : Fin 1) (_ : Fin 1) => (1 : Cq))
            / diffractogram_intensity_claim
                (fun (_ : Fin 1) (_ : Fin 1) (_ : Fin 2) (_ : Fin 2) => (1 : ℚ)) := by
  refine ⟨?_, ?_, ?_⟩
  · norm_num [diffractogram_intensity, Fin.sum_univ_succ]
  · norm_num [diffractogram_intensity_claim, Fin.sum_univ_succ]
  · norm_num [intensity_changer_sq, mainbeam_intensity, diffractogram_intensity,
      diffractogram_intensity_claim, Cq.normSq, Fin.sum_univ_succ]

/-- Claim C4, amended: the normalization scalar squared equals (sum of
squared magnitudes of the probe wavefunction) divided by the mean over the
two DETECTOR axes of the intensity, summed over the scan positions — equal
to the total intensity divided by the number of detector pixels.  (The
source's `** 0.5` square root is tracked through the square of the scalar.) -/
theorem C4_amended {s0 s1 d0 d1 w h : ℕ} (data4D : R4 s0 s1 d0 d1)
    (electron_beam : T2 w h) :
    diffractogram_intensity data4D
        = (∑ i : Fin s0, ∑ j : Fin s1, ∑ k : Fin d0, ∑ l : Fin d1, data4D i j k l)
            / ((d0 : ℚ) * (d1 : ℚ))
      ∧ intensity_changer_sq data4D electron_beam
        = mainbeam_intensity electron_beam / diffractogram_intensity data4D := by
  constructor
  · simp [diffractogram_intensity, Finset.sum_div]
  · rfl

/-- Claim C5, counterexample: with mean diffraction intensity exactly zero
(the all-zero dataset) the normalization block of lines 159-161 does not
fail with InvalidInputError; it is straight-line arithmetic that produces a
value (in floating point, a non-finite one) and no error. -/
theorem C5_counterexample :
    diffractogram_intensity
        (fun (_ : Fin 1) (_ : Fin 1) (_ : Fin 2) (_ : Fin 2) => (0 : ℚ)) = 0
      ∧ wdd_normalization
          (fun (_ : Fin 1) (_ : Fin 1) (_ : Fin 2) (_ : Fin 2) => (0 : ℚ))
          (fun (_ : Fin 1) (_ : Fin 1) => (1 : Cq))
        ≠ Except.error WddError.invalidInput := by
  constructor
  · norm_num [diffractogram_intensity, Fin.sum_univ_succ]
  · simp [wdd_normalization]

/-- Claim C5, amended: the code performs no validity check and raises no
InvalidInputError — the normalization block succeeds on every input — and
for every dataset with strictly positive mean diffraction intensity
(together with a probe of positive total intensity) the squared
normalization scalar is strictly positive, hence the scalar itself is
strictly positive and finite. -/
theorem C5_amended {s0 s1 d0 d1 w h : ℕ} (data4D : R4 s0 s1 d0 d1)
    (electron_beam : T2 w h)
    (hd : 0 < diffractogram_intensity data4D)
    (hp : 0 < mainbeam_intensity electron_beam) :
    wdd_normalization data4D electron_beam
        = Except.ok (intensity_changer_sq data4D electron_beam)
      ∧ 0 < intensity_changer_sq data4D electron_beam :=
  ⟨rfl, div_pos hp hd⟩

/-- Witness for the amended claim C5 at a concrete input. -/
theorem C5_amended_witness :
    0 < diffractogram_intensity
        (fun (_ : Fin 1) (_ : Fin 1) (_ : Fin 2) (_ : Fin 2) => (1 : ℚ))
      ∧ 0 < mainbeam_intensity (fun (_ : Fin 1) (_ : Fin 1) => (1 : Cq))
      ∧ (wdd_normalization
            (fun (_ : Fin 1) (_ : Fin 1) (_ : Fin 2) (_ : Fin 2) => (1 : ℚ))
            (fun (_ : Fin 1) (_ : Fin 1) => (1 : Cq))
          = Except.ok (intensity_changer_sq
              (fun (_ : Fin 1) (_ : Fin 1) (_ : Fin 2) (_ : Fin 2) => (1 : ℚ))
              (fun (_ : Fin 1) (_ : Fin 1) => (1 : Cq)))
        ∧ 0 < intensity_changer_sq
            (fun (_ : Fin 1) (_ : Fin 1) (_ : Fin 2) (_ : Fin 2) => (1 : ℚ))
            (fun (_ : Fin 1) (_ : Fin 1) => (1 : Cq))) := by
  have hd : 0 < diffractogram_intensity
      (fun (_ : Fin 1) (_ : Fin 1) (_ : Fin 2) (_ : Fin 2) => (1 : ℚ)) := by
    norm_num [diffractogram_intensity, Fin.sum_univ_succ]
  have hp : 0 < mainbeam_intensity (fun (_ : Fin 1) (_ : Fin 1) => (1 : Cq)) := by
    norm_num [mainbeam_intensity, Cq.normSq, Fin.sum_univ_succ]
  exact ⟨hd, hp, C5_amended _ _ hd hp⟩

/-- Claim C1: the return value of wdd is not determined by its declared
inputs.  Its final step (line 168) multiplies the extracted slice by the
name `test_beam`, which is bound nowhere in wdd.py and is not a parameter of
`wdd`; with every declared input held fixed, two different values of the
free name produce different results, so the call cannot run to completion as
a pure function of the Measured Dataset and the optical parameters (at run
time it raises NameError there, after a TypeError already due at line 158,
see C8). -/
theorem C1_test_beam_unbound :
    wdd_step9 (fun (_ : Fin 1) (_ : Fin 1) => (1 : Cq))
        (fun (_ : Fin 1) (_ : Fin 1) => (1 : Cq)) 0 0
      ≠ wdd_step9 (fun (_ : Fin 1) (_ : Fin 1) => (1 : Cq))
          (fun (_ : Fin 1) (_ : Fin 1) => (⟨2, 0⟩ : Cq)) 0 0 := by
  simp only [wdd_step9, one_mul]
  intro habs
  have hre := congrArg Cq.re habs
  simp at hre

/-- Claim C8: line 158 of wdd.py does not invoke make_probe with the five
arguments (aperture_angle, voltage, width, height, calibration): it passes
four positional arguments, with the image size as a single tuple in the
third position — unlike line 95 inside fft_wigner_probe, which passes the
five arguments separately, and unlike the five-parameter signature of the
external make_probe. -/
theorem C8_make_probe_call_arity :
    (wdd_make_probe_args 30 300 64 64 10).length = 4
      ∧ (fft_wigner_make_probe_args 30 300 64 64 10).length = make_probe_arity
      ∧ (wdd_make_probe_args 30 300 64 64 10).length ≠ make_probe_arity
      ∧ wdd_make_probe_args 30 300 64 64 10
          ≠ fft_wigner_make_probe_args 30 300 64 64 10 := by
  refine ⟨rfl, rfl, by decide, ?_⟩
  intro habs
  have := congrArg List.length habs
  simp [wdd_make_probe_args, fft_wigner_make_probe_args] at this

/-- Sum of purely real `Cq` values is the purely real `Cq` of the sum. -/
theorem sum_real_cq {ι : Type} (s : Finset ι) (r : ι → ℚ) :
    (∑ i ∈ s, (⟨r i, 0⟩ : Cq)) = (⟨∑ i ∈ s, r i, 0⟩ : Cq) := by
  apply Cq.ext
  · rw [Cq.re_sum]
  · rw [Cq.im_sum]
    simp

/-- Claim C10: under the external shift collaborator's contract that a zero
offset is the identity and that shifting never increases the total
intensity, the Wigner Probe Synthesizer's slice at the exact grid-center
position (index `(w/2, h/2)`, shift offset `(0, 0)`, which exists exactly
when both dimensions are even) equals `conj(probe) * probe = |probe|²`
elementwise, and that slice has maximal magnitude among all shift positions
of the output tensor: the squared magnitude of its summed entries (the
probe autocorrelation carried by each slice) dominates that of every other
shift position. -/
theorem C10_wigner_center_slice {w h : ℕ} (tb : T2 w h)
    (shiftFn : T2 w h → ℚ × ℚ → T2 w h) (intensity_param : ℚ)
    (hx : w / 2 < w) (hy : h / 2 < h) (h2w : 2 ∣ w) (h2h : 2 ∣ h)
    (hid : shiftFn (fourier_beam tb intensity_param) (0, 0)
      = fourier_beam tb intensity_param)
    (hint : ∀ d : ℚ × ℚ,
      (∑ p : Fin w × Fin h,
          Cq.normSq (shiftFn (fourier_beam tb intensity_param) d p.1 p.2))
        ≤ ∑ p : Fin w × Fin h,
            Cq.normSq (fourier_beam tb intensity_param p.1 p.2)) :
    (∀ (a : Fin w) (b : Fin h),
        fft_wigner_probe tb shiftFn intensity_param a b ⟨w / 2, hx⟩ ⟨h / 2, hy⟩
          = Cq.conj (fourier_beam tb intensity_param a b)
              * fourier_beam tb intensity_param a b)
      ∧ ∀ (x : Fin w) (y : Fin h),
          Cq.normSq
              (wigner_slice_sum (fft_wigner_probe tb shiftFn intensity_param) x y)
            ≤ Cq.normSq
                (wigner_slice_sum (fft_wigner_probe tb shiftFn intensity_param)
                  ⟨w / 2, hx⟩ ⟨h / 2, hy⟩) := by
  have hcw : ((w / 2 : ℕ) : ℚ) = (w : ℚ) / 2 := by
    rw [eq_div_iff (by norm_num : (2 : ℚ) ≠ 0)]
    exact_mod_cast Nat.div_mul_cancel h2w
  have hch : ((h / 2 : ℕ) : ℚ) = (h : ℚ) / 2 := by
    rw [eq_div_iff (by norm_num : (2 : ℚ) ≠ 0)]
    exact_mod_cast Nat.div_mul_cancel h2h
  have hcenter : ∀ (a : Fin w) (b : Fin h),
      fft_wigner_probe tb shiftFn intensity_param a b ⟨w / 2, hx⟩ ⟨h / 2, hy⟩
        = Cq.conj (fourier_beam tb intensity_param a b)
            * fourier_beam tb intensity_param a b := by
    intro a b
    rw [fft_wigner_probe_apply]
    have hp : (-((((⟨w / 2, hx⟩ : Fin w) : ℕ) : ℚ) - (w : ℚ) / 2),
               -((((⟨h / 2, hy⟩ : Fin h) : ℕ) : ℚ) - (h : ℚ) / 2))
        = ((0 : ℚ), (0 : ℚ)) := by
      show (-(((w / 2 : ℕ) : ℚ) - (w : ℚ) / 2),
            -(((h / 2 : ℕ) : ℚ) - (h : ℚ) / 2)) = ((0 : ℚ), (0 : ℚ))
      rw [hcw, hch]
      norm_num
    rw [hp, hid]
  refine ⟨hcenter, ?_⟩
  intro x y
  have hcentersum :
      wigner_slice_sum (fft_wigner_probe tb shiftFn intensity_param)
          ⟨w / 2, hx⟩ ⟨h / 2, hy⟩
        = (⟨∑ p : Fin w × Fin h,
              Cq.normSq (fourier_beam tb intensity_param p.1 p.2), 0⟩ : Cq) := by
    unfold wigner_slice_sum
    calc
      ∑ a : Fin w, ∑ b : Fin h,
          fft_wigner_probe tb shiftFn intensity_param a b ⟨w / 2, hx⟩ ⟨h / 2, hy⟩
          = ∑ a : Fin w, ∑ b : Fin h,
              (⟨Cq.normSq (fourier_beam tb intensity_param a b), 0⟩ : Cq) :=
        Finset.sum_congr rfl fun a _ => Finset.sum_congr rfl fun b _ =>
          (hcenter a b).trans (Cq.conj_mul_self _)
      _ = ∑ a : Fin w,
            (⟨∑ b : Fin h, Cq.normSq (fourier_beam tb intensity_param a b), 0⟩ : Cq) :=
        Finset.sum_congr rfl fun a _ => sum_real_cq _ _
      _ = (⟨∑ a : Fin w, ∑ b : Fin h,
              Cq.normSq (fourier_beam tb intensity_param a b), 0⟩ : Cq) :=
        sum_real_cq _ _
      _ = (⟨∑ p : Fin w × Fin h,
              Cq.normSq (fourier_beam tb intensity_param p.1 p.2), 0⟩ : Cq) := by
        rw [Fintype.sum_prod_type]
  have hgen :
      wigner_slice_sum (fft_wigner_probe tb shiftFn intensity_param) x y
        = ∑ p : Fin w × Fin h,
            Cq.conj (fourier_beam tb intensity_param p.1 p.2) *
              shiftFn (fourier_beam tb intensity_param)
                (-(((x : ℕ) : ℚ) - (w : ℚ) / 2),
                 -(((y : ℕ) : ℚ) - (h : ℚ) / 2)) p.1 p.2 := by
    unfold wigner_slice_sum
    rw [Fintype.sum_prod_type]
    exact Finset.sum_congr rfl fun a _ => Finset.sum_congr rfl fun b _ =>
      fft_wigner_probe_apply tb shiftFn intensity_param a b x y
  rw [hgen, hcentersum]
  have hAnn : 0 ≤ ∑ p : Fin w × Fin h,
      Cq.normSq (fourier_beam tb intensity_param p.1 p.2) :=
    Finset.sum_nonneg fun p _ => Cq.normSq_nonneg _
  have hcs := cq_cauchy_schwarz (Finset.univ : Finset (Fin w × Fin h))
    (fun p => fourier_beam tb intensity_param p.1 p.2)
    (fun p => shiftFn (fourier_beam tb intensity_param)
      (-(((x : ℕ) : ℚ) - (w : ℚ) / 2), -(((y : ℕ) : ℚ) - (h : ℚ) / 2)) p.1 p.2)
  have hBle := hint
    (-(((x : ℕ) : ℚ) - (w : ℚ) / 2), -(((y : ℕ) : ℚ) - (h : ℚ) / 2))
  have hns : Cq.normSq
      (⟨∑ p : Fin w × Fin h,
          Cq.normSq (fourier_beam tb intensity_param p.1 p.2), 0⟩ : Cq)
      = (∑ p : Fin w × Fin h, Cq.normSq (fourier_beam tb intensity_param p.1 p.2))
          * ∑ p : Fin w × Fin h, Cq.normSq (fourier_beam tb intensity_param p.1 p.2) := by
    simp [Cq.normSq]
  rw [hns]
  exact le_trans hcs (mul_le_mul_of_nonneg_left hBle hAnn)

/-- Witness for claim C10 at a concrete input: 2x2 unit probe, unit
normalization scalar, and a shift collaborator that satisfies the contract
(zero offset is the identity; shifting preserves total intensity). -/
theorem C10_witness :
    ((2 : ℕ) / 2 < 2 ∧ (2 : ℕ) ∣ 2)
      ∧ ((∀ (a : Fin 2) (b : Fin 2),
            fft_wigner_probe (fun (_ : Fin 2) (_ : Fin 2) => (1 : Cq))
                (fun g _ => g) 1 a b ⟨2 / 2, by decide⟩ ⟨2 / 2, by decide⟩
              = Cq.conj (fourier_beam (fun (_ : Fin 2) (_ : Fin 2) => (1 : Cq)) 1 a b)
                  * fourier_beam (fun (_ : Fin 2) (_ : Fin 2) => (1 : Cq)) 1 a b)
        ∧ ∀ (x : Fin 2) (y : Fin 2),
            Cq.normSq (wigner_slice_sum
                (fft_wigner_probe (fun (_ : Fin 2) (_ : Fin 2) => (1 : Cq))
                  (fun g _ => g) 1) x y)
              ≤ Cq.normSq (wigner_slice_sum
                  (fft_wigner_probe (fun (_ : Fin 2) (_ : Fin 2) => (1 : Cq))
                    (fun g _ => g) 1) ⟨2 / 2, by decide⟩ ⟨2 / 2, by decide⟩)) :=
  ⟨⟨by decide, by decide⟩,
    C10_wigner_center_slice (fun (_ : Fin 2) (_ : Fin 2) => (1 : Cq))
      (fun g _ => g) 1 (by decide) (by decide) (by decide) (by decide) rfl
      (fun _ => le_refl _)⟩
